import Mathlib

/-!
Shallow embedding of `src/app.py` (salarize): the query builder, the
regex-based quantile extractor, the ragged quantile aggregator, the
sampler error handling, and the `main` pipeline, together with theorems
settling the specification claims about them.

Strings are modelled as `List Char`.  Digits are modelled as the ASCII
digits 0-9 (the claims only involve ASCII text).  Machine floats
(`np.mean`) are modelled as exact rationals.
-/

/-- Convert a string literal to the character-list representation used
throughout this development. -/
def str (s : String) : List Char := s.data

/-- The apostrophe character (U+0027), spliced into the prompt string. -/
def apos : Char := Char.ofNat 39

/-- Python substring test `pat in text`: some tail of `text` has `pat` as
a prefix. -/
def containsSub (pat : List Char) : List Char → Bool
  | [] => pat.isPrefixOf []
  | c :: rest => pat.isPrefixOf (c :: rest) || containsSub pat rest

/-- The fixed inflation note embedded at the front of every prompt
(`inflation_note` local in `generate_query_for_quantiles`). -/
def inflation_note : List Char :=
  str "Note: Prices have risen by 11% from January 2022 to March 2024."

/-- Embedding of `generate_query_for_quantiles(job_title, company, location, model_type)`
from `src/app.py`.  Note that the source interpolates only `job_title`,
`company` and `location` into the format string; the `model_type`
parameter is accepted but never used in the returned text. -/
def generate_query_for_quantiles
    (job_title company location model_type : List Char) : List Char :=
  inflation_note ++
  str " I need the specific numerical salary estimates only, no explanations, for the " ++
  job_title ++ str " role at " ++ company ++ str " in " ++ location ++
  str ". Provide the data in a numerical list separated by commas for the following percentiles 10th, 25th, 50th, 75th, and 90th. For example: " ++
  [apos] ++
  str "10: <salary>, 25: <salary>, 50: <salary>, 75: <salary>, 90: <salary>" ++
  [apos] ++
  str ". Only include the salary numbers and percentiles."

/-- A character matched by the amount class of the pattern, `[\d,]`. -/
def isAmtChar (c : Char) : Bool := c.isDigit || c == ','

/-- One attempt of the compiled pattern `(\d+): \$?([\d,]+)` at the head
of the text: one or more digits, a colon, exactly one space, an optional
dollar sign, then a nonempty run of digits and commas (both runs greedy,
which for these character classes means maximal).  Returns the two
capture groups and the remaining text after the match, or `none` when no
match starts at the head. -/
def matchAt (cs : List Char) : Option ((List Char × List Char) × List Char) :=
  let ds := cs.takeWhile Char.isDigit
  if ds.isEmpty then none
  else
    match cs.dropWhile Char.isDigit with
    | ':' :: ' ' :: r2 =>
      let r3 := match r2 with
        | '$' :: t => t
        | _ => r2
      let amt := r3.takeWhile isAmtChar
      if amt.isEmpty then none
      else some ((ds, amt), r3.dropWhile isAmtChar)
    | _ => none

/-- Model of `re.findall` for the pattern above: scan left to right, at each
position try a match; on success emit the capture groups and resume
after the match, otherwise advance one character.  The fuel argument
bounds the recursion; `findall` supplies the text length, which always
suffices because every step consumes at least one character. -/
def findallAux : Nat → List Char → List (List Char × List Char)
  | 0, _ => []
  | _ + 1, [] => []
  | fuel + 1, c :: rest =>
    match matchAt (c :: rest) with
    | some (groups, r) => groups :: findallAux fuel r
    | none => findallAux fuel rest

/-- Model of `quantile_pattern.findall(clean_text)`. -/
def findall (cs : List Char) : List (List Char × List Char) :=
  findallAux cs.length cs

/-- Model of `int` applied to a string of decimal digits. -/
def natOfDigits (ds : List Char) : Nat :=
  ds.foldl (fun n c => 10 * n + (c.toNat - 48)) 0

/-- One insertion into a Python dict built by a comprehension: if the key
is already present its value is overwritten in place (last occurrence
wins, first-occurrence position kept), otherwise the pair is appended. -/
def dictUpdate (m : List (Nat × Nat)) (k v : Nat) : List (Nat × Nat) :=
  if m.any (fun p => p.1 == k) then
    m.map (fun p => if p.1 = k then (p.1, v) else p)
  else m ++ [(k, v)]

/-- The dict comprehension in `extract_quantiles_from_response`: for each
match, `int(match[0])` keys `int(match[1].replace(",", ""))`.  When the
amount group consists of commas only, `int` is applied to the empty
string and raises `ValueError`; this is the `Except.error` case. -/
def buildDict (acc : List (Nat × Nat)) :
    List (List Char × List Char) → Except Unit (List (Nat × Nat))
  | [] => Except.ok acc
  | (ds, amt) :: rest =>
    let digs := amt.filter (fun c => c != ',')
    if digs.isEmpty then Except.error ()
    else buildDict (dictUpdate acc (natOfDigits ds) (natOfDigits digs)) rest

/-- Embedding of `extract_quantiles_from_response(text)` from `src/app.py`: strip
every literal period from the text, run the pattern over the result, and
build the percentile dictionary. -/
def extract_quantiles_from_response (text : List Char) :
    Except Unit (List (Nat × Nat)) :=
  buildDict [] (findall (text.filter (fun c => c != '.')))

/-- First-match association-list lookup, the reading of a Python dict
(whose key lists are duplicate-free) at a key. -/
def lookupA {α : Type} : List (Nat × α) → Nat → Option α
  | [], _ => none
  | p :: rest, k => if p.1 = k then some p.2 else lookupA rest k

/-- The key list of an association list, in order. -/
def keysOf {α : Type} (m : List (Nat × α)) : List Nat := m.map Prod.fst

/-- One step of the `defaultdict(list)` accumulation in
`synthesize_quantiles`: append `v` to the list stored at `k`, creating
the entry at the end when `k` is new. -/
def addVal (acc : List (Nat × List Nat)) (k v : Nat) : List (Nat × List Nat) :=
  if acc.any (fun p => p.1 == k) then
    acc.map (fun p => if p.1 = k then (p.1, p.2 ++ [v]) else p)
  else acc ++ [(k, [v])]

/-- The double loop of `synthesize_quantiles` filling the defaultdict. -/
def collect (qs : List (List (Nat × Nat))) : List (Nat × List Nat) :=
  qs.foldl (fun acc m => m.foldl (fun a p => addVal a p.1 p.2) acc) []

/-- Model of `np.mean` on a list of integers, exact: the rational sum
divided by the count. -/
def meanQ (l : List Nat) : ℚ := (l.map (fun v => (v : ℚ))).sum / (l.length : ℚ)

/-- Embedding of `synthesize_quantiles(quantiles_list)` from `src/app.py`: per key,
the `np.mean` of the collected values. -/
def synthesize_quantiles (qs : List (List (Nat × Nat))) : List (Nat × ℚ) :=
  (collect qs).map (fun p => (p.1, meanQ p.2))

/-- The values stored for key `k` in one sample, in entry order (every
pair whose key is `k`; for a genuine dict there is at most one). -/
def valsIn (k : Nat) (m : List (Nat × Nat)) : List Nat :=
  m.filterMap (fun p => if p.1 = k then some p.2 else none)

/-- All values stored for key `k` across a run, sample order preserved. -/
def allVals (k : Nat) : List (List (Nat × Nat)) → List Nat
  | [] => []
  | m :: qs => valsIn k m ++ allVals k qs

/-- The values at key `k` of exactly those samples whose dict contains
`k`, the reading used by the specification. -/
def valsAt (k : Nat) (qs : List (List (Nat × Nat))) : List Nat :=
  qs.filterMap (fun m => lookupA m k)

/-- An option as a zero-or-one element list. -/
def optToList {α : Type} : Option α → List α
  | none => []
  | some v => [v]

/-- Combine a previously stored optional value list with newly appended
values: no new values leave the entry unchanged, otherwise the entry
exists and ends with the new values. -/
def combineO (o : Option (List Nat)) (vs : List Nat) : Option (List Nat) :=
  match vs with
  | [] => o
  | _ => some (o.getD [] ++ vs)

/-- The chart produced by `fit_and_plot_distribution`.  The scipy
log-normal fit and the plotly figure are floating-point library calls
whose numeric content no claim inspects; the figure is modelled as an
opaque value determined by the aggregate it was fitted to. -/
structure Figure where
  agg : List (Nat × ℚ)
deriving DecidableEq

/-- Embedding of `fit_and_plot_distribution(averaged_quantiles)` from `src/app.py`,
modelled as the figure determined by its input (see `Figure`). -/
def fit_and_plot_distribution (averaged_quantiles : List (Nat × ℚ)) : Figure :=
  ⟨averaged_quantiles⟩

/-- The user-visible Streamlit events `main` can emit, in order:
`st.error` for an unexpected response format, the final `st.error` when
no valid sample was collected, the `st.error(str(e))` shown when the
`try` block raises `ValueError` (formatting the fallback string
"No median found" with the numeric format spec), `st.success` with the
median, and `st.plotly_chart`. -/
inductive UIEvent
  | errorUnexpected (resp : List Char)
  | errorFailed
  | errorValue
  | successMedian (m : ℚ)
  | plotChart (f : Figure)
deriving DecidableEq

/-- A content block of an API response: either it has a `text` attribute
or it does not. -/
inductive ContentBlock
  | textBlock (t : List Char)
  | otherBlock
deriving DecidableEq

/-- The outcome of one outbound API call, abstracting the network: the
call either returns a response with a content list or raises an
exception rendered as a message string. -/
inductive ApiOutcome
  | resp (content : List ContentBlock)
  | exn (e : List Char)
deriving DecidableEq

/-- The sentinel string `estimate_salary` returns on any failure. -/
def errorSentinel : List Char := str "Error or no data"

/-- Embedding of `estimate_salary(query, model_type)` from `src/app.py`, as a function
of the abstracted call outcome.  Returns the response text when the
content list is nonempty and its first block has a `text` attribute,
and the sentinel otherwise; an exception is caught, printed to the
developer console (second component collects the `print` lines), and
also yields the sentinel. -/
def estimate_salary (outcome : ApiOutcome) : List Char × List (List Char) :=
  match outcome with
  | ApiOutcome.exn e => (errorSentinel, [str "Error during API call: " ++ e])
  | ApiOutcome.resp content =>
    match content with
    | ContentBlock.textBlock t :: _ => (t, [])
    | _ => (errorSentinel, [])

/-- The sampling loop of `main`: for each raw response, when it contains
the literal label "10:" the extractor runs and its dict is appended to
`quantiles_list`; otherwise `st.error` reports the unexpected format and
the loop continues.  An uncaught `ValueError` from the extractor aborts
the run (`Except.error`). -/
def sampleLoop : List (List Char) → Except Unit (List (List (Nat × Nat)) × List UIEvent)
  | [] => Except.ok ([], [])
  | r :: rest =>
    if containsSub (str "10:") r then
      match extract_quantiles_from_response r with
      | Except.error u => Except.error u
      | Except.ok q =>
        match sampleLoop rest with
        | Except.error u => Except.error u
        | Except.ok (ql, evs) => Except.ok (q :: ql, evs)
    else
      match sampleLoop rest with
      | Except.error u => Except.error u
      | Except.ok (ql, evs) => Except.ok (ql, UIEvent.errorUnexpected r :: evs)

/-- The `try` block of `main` after aggregation:
`median_salary = synthesized_quantiles.get(50, "No median found")` and
`st.success(f"... ${median_salary:,.0f}")`.  When key 50 is present the
formatted success message and the chart are shown; when it is absent the
fallback string reaches the numeric format spec, which raises
`ValueError`, caught by the `except` clause and shown via
`st.error(str(e))`. -/
def presentStage (agg : List (Nat × ℚ)) : List UIEvent :=
  match lookupA agg 50 with
  | some m => [UIEvent.successMedian m, UIEvent.plotChart (fit_and_plot_distribution agg)]
  | none => [UIEvent.errorValue]

/-- The body of `main` in `src/app.py` after the button press, as a
function of the raw response texts (one per repetition): run the
sampling loop, then either report that no valid quantile data was
retrieved, or aggregate and present.  The result is the ordered list of
user-visible events; `Except.error` is the uncaught extractor
`ValueError`.  (Named `mainRun` because Lean reserves `main` for an
executable entry point.) -/
def mainRun (responses : List (List Char)) : Except Unit (List UIEvent) :=
  match sampleLoop responses with
  | Except.error u => Except.error u
  | Except.ok (ql, evs) =>
    if ql.isEmpty then Except.ok (evs ++ [UIEvent.errorFailed])
    else Except.ok (evs ++ presentStage (synthesize_quantiles ql))

/-- Composition of `mainRun` with the sampler: each repetition yields an API
outcome, `estimate_salary` turns it into a response text, and the loop
processes the texts. -/
def mainFromOutcomes (outcomes : List ApiOutcome) : Except Unit (List UIEvent) :=
  mainRun (outcomes.map (fun o => (estimate_salary o).1))

/-! ### Helper lemmas -/

theorem isPrefixOf_append_self (p r : List Char) : p.isPrefixOf (p ++ r) = true := by
  induction p with
  | nil => simp [List.isPrefixOf]
  | cons c cs ih => simp [List.isPrefixOf, ih]

theorem containsSub_of_head (pat text : List Char)
    (h : pat.isPrefixOf text = true) : containsSub pat text = true := by
  cases text with
  | nil => simpa [containsSub] using h
  | cons c t => simp [containsSub, h]

theorem containsSub_append_self (p r : List Char) : containsSub p (p ++ r) = true :=
  containsSub_of_head p (p ++ r) (isPrefixOf_append_self p r)

theorem lookupA_append {α : Type} (a b : List (Nat × α)) (k : Nat) :
    lookupA (a ++ b) k =
      (match lookupA a k with
       | some v => some v
       | none => lookupA b k) := by
  induction a with
  | nil => simp [lookupA]
  | cons p rest ih =>
    by_cases h : p.1 = k <;> simp [lookupA, h, ih]

theorem lookupA_eq_none_iff {α : Type} (m : List (Nat × α)) (k : Nat) :
    lookupA m k = none ↔ k ∉ keysOf m := by
  induction m with
  | nil => simp [lookupA, keysOf]
  | cons p rest ih =>
    have hcons : keysOf (p :: rest) = p.1 :: keysOf rest := rfl
    by_cases h : p.1 = k
    · simp [lookupA, h, hcons]
    · have h2 : ¬k = p.1 := fun hc => h hc.symm
      simp [lookupA, h, hcons, h2, ih]

theorem any_key_iff_mem {α : Type} (m : List (Nat × α)) (k : Nat) :
    m.any (fun p => p.1 == k) = true ↔ k ∈ keysOf m := by
  induction m with
  | nil => simp [keysOf]
  | cons p rest ih =>
    have hcons : keysOf (p :: rest) = p.1 :: keysOf rest := rfl
    rw [List.any_cons, hcons]
    simp only [Bool.or_eq_true, beq_iff_eq, ih, List.mem_cons]
    constructor
    · intro hc
      cases hc with
      | inl he => exact Or.inl he.symm
      | inr ht => exact Or.inr ht
    · intro hc
      cases hc with
      | inl he => exact Or.inl he.symm
      | inr ht => exact Or.inr ht

theorem lookupA_isSome_of_mem {α : Type} (m : List (Nat × α)) (k : Nat)
    (h : k ∈ keysOf m) : ∃ v, lookupA m k = some v := by
  induction m with
  | nil => simp [keysOf] at h
  | cons p rest ih =>
    by_cases hp : p.1 = k
    · exact ⟨p.2, by simp [lookupA, hp]⟩
    · have hcons : keysOf (p :: rest) = p.1 :: keysOf rest := rfl
      rw [hcons, List.mem_cons] at h
      cases h with
      | inl he => exact absurd he.symm hp
      | inr ht =>
        obtain ⟨v, hv⟩ := ih ht
        exact ⟨v, by simp [lookupA, hp, hv]⟩

theorem lookupA_map_snoc (acc : List (Nat × List Nat)) (kk v : Nat) :
    lookupA (acc.map (fun p => if p.1 = kk then (p.1, p.2 ++ [v]) else p)) kk =
      (lookupA acc kk).map (fun l => l ++ [v]) := by
  induction acc with
  | nil => rfl
  | cons p rest ih =>
    by_cases hp : p.1 = kk <;> simp [lookupA, hp, ih]

theorem lookupA_map_snoc_ne (acc : List (Nat × List Nat)) (kk v k : Nat)
    (h : k ≠ kk) :
    lookupA (acc.map (fun p => if p.1 = kk then (p.1, p.2 ++ [v]) else p)) k =
      lookupA acc k := by
  induction acc with
  | nil => rfl
  | cons p rest ih =>
    by_cases hp : p.1 = kk
    · simp [lookupA, hp, h, Ne.symm h, ih]
    · by_cases hpk : p.1 = k <;> simp [lookupA, hp, hpk, h, Ne.symm h, ih]

theorem lookupA_addVal (acc : List (Nat × List Nat)) (kk v k : Nat) :
    lookupA (addVal acc kk v) k =
      if k = kk then some ((lookupA acc kk).getD [] ++ [v]) else lookupA acc k := by
  unfold addVal
  by_cases hany : acc.any (fun p => p.1 == kk) = true
  · rw [if_pos hany]
    by_cases hk : k = kk
    · subst hk
      obtain ⟨l, hl⟩ := lookupA_isSome_of_mem acc k ((any_key_iff_mem acc k).mp hany)
      simp [lookupA_map_snoc, hl]
    · simp [lookupA_map_snoc_ne acc kk v k hk, hk]
  · rw [if_neg hany]
    have hmem : kk ∉ keysOf acc := fun hm => hany ((any_key_iff_mem acc kk).mpr hm)
    have hnone : lookupA acc kk = none := (lookupA_eq_none_iff acc kk).mpr hmem
    by_cases hk : k = kk
    · subst hk
      rw [lookupA_append, hnone]
      simp [lookupA, hnone]
    · have hk2 : ¬kk = k := fun hc => hk hc.symm
      rw [lookupA_append]
      cases hl : lookupA acc k with
      | some v2 => simp [hk, hl]
      | none => simp [lookupA, hk, hk2, hl]

theorem combineO_push (o : Option (List Nat)) (x : Nat) (vs : List Nat) :
    combineO (some (o.getD [] ++ [x])) vs = combineO o (x :: vs) := by
  cases vs <;> cases o <;> simp [combineO]

theorem combineO_assoc (o : Option (List Nat)) (vs ws : List Nat) :
    combineO (combineO o vs) ws = combineO o (vs ++ ws) := by
  cases vs <;> cases ws <;> cases o <;> simp [combineO]

theorem lookupA_foldl_addVal (m : List (Nat × Nat)) :
    ∀ (acc : List (Nat × List Nat)) (k : Nat),
      lookupA (m.foldl (fun a p => addVal a p.1 p.2) acc) k =
        combineO (lookupA acc k) (valsIn k m) := by
  induction m with
  | nil => intro acc k; rfl
  | cons p m2 ih =>
    intro acc k
    rw [List.foldl_cons, ih, lookupA_addVal]
    by_cases hk : k = p.1
    · rw [if_pos hk]
      have hv : valsIn k (p :: m2) = p.2 :: valsIn k m2 := by
        simp [valsIn, List.filterMap_cons, hk.symm]
      rw [hv, ← combineO_push, hk]
    · rw [if_neg hk]
      have hp : ¬p.1 = k := fun hc => hk hc.symm
      have hv : valsIn k (p :: m2) = valsIn k m2 := by
        simp [valsIn, List.filterMap_cons, hp]
      rw [hv]

theorem lookupA_foldl_collect (qs : List (List (Nat × Nat))) :
    ∀ (acc : List (Nat × List Nat)) (k : Nat),
      lookupA (qs.foldl (fun acc m => m.foldl (fun a p => addVal a p.1 p.2) acc) acc) k =
        combineO (lookupA acc k) (allVals k qs) := by
  induction qs with
  | nil => intro acc k; rfl
  | cons m qs2 ih =>
    intro acc k
    rw [List.foldl_cons, ih, lookupA_foldl_addVal, combineO_assoc]
    rfl

theorem lookupA_collect (qs : List (List (Nat × Nat))) (k : Nat) :
    lookupA (collect qs) k =
      (match allVals k qs with
       | [] => none
       | vs => some vs) := by
  unfold collect
  rw [lookupA_foldl_collect]
  cases h : allVals k qs <;> simp [combineO, lookupA]

theorem lookupA_map_pair {β γ : Type} (l : List (Nat × β)) (f : β → γ) (k : Nat) :
    lookupA (l.map (fun p => (p.1, f p.2))) k = (lookupA l k).map f := by
  induction l with
  | nil => rfl
  | cons p rest ih => by_cases hp : p.1 = k <;> simp [lookupA, hp, ih]

theorem keysOf_map_pair {β γ : Type} (l : List (Nat × β)) (f : β → γ) :
    keysOf (l.map (fun p => (p.1, f p.2))) = keysOf l := by
  induction l with
  | nil => rfl
  | cons p rest ih =>
    have hstep : keysOf ((p :: rest).map (fun p => (p.1, f p.2))) =
        p.1 :: keysOf (rest.map (fun p => (p.1, f p.2))) := rfl
    rw [hstep, ih]
    rfl

theorem valsIn_eq_nil_of_not_mem (k : Nat) (m : List (Nat × Nat)) (h : k ∉ keysOf m) :
    valsIn k m = [] := by
  induction m with
  | nil => rfl
  | cons p rest ih =>
    have hcons : keysOf (p :: rest) = p.1 :: keysOf rest := rfl
    rw [hcons, List.mem_cons] at h
    push_neg at h
    have hp : ¬p.1 = k := fun hc => h.1 hc.symm
    have hstep : valsIn k (p :: rest) = valsIn k rest := by
      simp [valsIn, List.filterMap_cons, hp]
    rw [hstep]
    exact ih h.2

theorem valsIn_of_nodup (k : Nat) (m : List (Nat × Nat)) (h : (keysOf m).Nodup) :
    valsIn k m = optToList (lookupA m k) := by
  induction m with
  | nil => rfl
  | cons p rest ih =>
    have hcons : keysOf (p :: rest) = p.1 :: keysOf rest := rfl
    rw [hcons, List.nodup_cons] at h
    by_cases hp : p.1 = k
    · have hnil : valsIn k rest = [] := by
        apply valsIn_eq_nil_of_not_mem
        rw [← hp]
        exact h.1
      have hstep : valsIn k (p :: rest) = p.2 :: valsIn k rest := by
        simp [valsIn, List.filterMap_cons, hp]
      have hlook : lookupA (p :: rest) k = some p.2 := by simp [lookupA, hp]
      rw [hstep, hnil, hlook]
      rfl
    · have hstep : valsIn k (p :: rest) = valsIn k rest := by
        simp [valsIn, List.filterMap_cons, hp]
      have hlook : lookupA (p :: rest) k = lookupA rest k := by simp [lookupA, hp]
      rw [hstep, hlook, ih h.2]

theorem allVals_eq_valsAt (k : Nat) (qs : List (List (Nat × Nat)))
    (h : ∀ m ∈ qs, (keysOf m).Nodup) :
    allVals k qs = valsAt k qs := by
  induction qs with
  | nil => rfl
  | cons m qs2 ih =>
    have hm := h m (by simp)
    have h2 : ∀ m2 ∈ qs2, (keysOf m2).Nodup := fun m2 hm2 => h m2 (by simp [hm2])
    have hstep : allVals k (m :: qs2) = valsIn k m ++ allVals k qs2 := rfl
    rw [hstep, valsIn_of_nodup k m hm, ih h2]
    cases hl : lookupA m k <;> simp [valsAt, List.filterMap_cons, hl, optToList]

theorem valsAt_eq_nil_iff (k : Nat) (qs : List (List (Nat × Nat))) :
    valsAt k qs = [] ↔ ∀ m ∈ qs, lookupA m k = none := by
  induction qs with
  | nil => simp [valsAt]
  | cons m qs2 _ =>
    cases hl : lookupA m k <;> simp [valsAt, List.filterMap_cons, hl]

/-! ### Claim theorems -/

/-- Claim C3: for every list of sample mappings (each a genuine dict,
i.e. duplicate-free keys), `synthesize_quantiles` returns a mapping
whose key set is the union of the keys of all samples, and whose value
at each key `k` is the arithmetic mean of the values at `k` over exactly
those samples that contain `k`. -/
theorem C3_synthesize_ragged_mean (qs : List (List (Nat × Nat)))
    (h : ∀ m ∈ qs, (keysOf m).Nodup) (k : Nat) :
    (k ∈ keysOf (synthesize_quantiles qs) ↔ ∃ m, m ∈ qs ∧ k ∈ keysOf m) ∧
    lookupA (synthesize_quantiles qs) k =
      (if valsAt k qs = [] then none else some (meanQ (valsAt k qs))) := by
  have hlook : lookupA (synthesize_quantiles qs) k =
      (lookupA (collect qs) k).map meanQ := by
    unfold synthesize_quantiles
    exact lookupA_map_pair (collect qs) meanQ k
  have hcoll : lookupA (collect qs) k =
      (match valsAt k qs with
       | [] => none
       | vs => some vs) := by
    rw [lookupA_collect, allVals_eq_valsAt k qs h]
  constructor
  · have hkeys : keysOf (synthesize_quantiles qs) = keysOf (collect qs) := by
      unfold synthesize_quantiles
      exact keysOf_map_pair (collect qs) meanQ
    rw [hkeys]
    constructor
    · intro hmem
      obtain ⟨v, hv⟩ := lookupA_isSome_of_mem (collect qs) k hmem
      rw [hcoll] at hv
      have hne : valsAt k qs ≠ [] := by
        intro hnil
        rw [hnil] at hv
        simp at hv
      have hnotall : ¬ ∀ m ∈ qs, lookupA m k = none :=
        fun hall => hne ((valsAt_eq_nil_iff k qs).mpr hall)
      push_neg at hnotall
      obtain ⟨m, hmqs, hmk⟩ := hnotall
      refine ⟨m, hmqs, ?_⟩
      by_contra hnk
      exact hmk ((lookupA_eq_none_iff m k).mpr hnk)
    · intro hex
      obtain ⟨m, hmqs, hmk⟩ := hex
      obtain ⟨v, hv⟩ := lookupA_isSome_of_mem m k hmk
      have hne : valsAt k qs ≠ [] := by
        intro hnil
        have hall := (valsAt_eq_nil_iff k qs).mp hnil
        rw [hall m hmqs] at hv
        simp at hv
      by_contra hnotmem
      have hnone : lookupA (collect qs) k = none :=
        (lookupA_eq_none_iff _ k).mpr hnotmem
      rw [hcoll] at hnone
      cases hvs : valsAt k qs with
      | nil => exact hne hvs
      | cons x xs =>
        rw [hvs] at hnone
        simp at hnone
  · rw [hlook, hcoll]
    cases hvs : valsAt k qs with
    | nil => simp
    | cons x xs => simp

/-- Witness for C3 at the specification example: samples {10:100,50:200}
and {10:300,90:400} give means 200, 200, 400 at keys 10, 50, 90. -/
theorem C3_synthesize_ragged_mean_witness :
    (∀ m ∈ ([[(10,100),(50,200)],[(10,300),(90,400)]] : List (List (Nat × Nat))),
        (keysOf m).Nodup) ∧
    lookupA (synthesize_quantiles [[(10,100),(50,200)],[(10,300),(90,400)]]) 10 = some 200 ∧
    lookupA (synthesize_quantiles [[(10,100),(50,200)],[(10,300),(90,400)]]) 50 = some 200 ∧
    lookupA (synthesize_quantiles [[(10,100),(50,200)],[(10,300),(90,400)]]) 90 = some 400 := by
  refine ⟨by decide, ?_, ?_, ?_⟩
  · have hv : valsAt 10 [[(10,100),(50,200)],[(10,300),(90,400)]] = [100, 300] := by
      simp [valsAt, lookupA, List.filterMap_cons]
    have hm : meanQ [100, 300] = 200 := by norm_num [meanQ]
    rw [(C3_synthesize_ragged_mean _ (by decide) 10).2, hv, hm]
    rfl
  · have hv : valsAt 50 [[(10,100),(50,200)],[(10,300),(90,400)]] = [200] := by
      simp [valsAt, lookupA, List.filterMap_cons]
    have hm : meanQ [200] = 200 := by norm_num [meanQ]
    rw [(C3_synthesize_ragged_mean _ (by decide) 50).2, hv, hm]
    rfl
  · have hv : valsAt 90 [[(10,100),(50,200)],[(10,300),(90,400)]] = [400] := by
      simp [valsAt, lookupA, List.filterMap_cons]
    have hm : meanQ [400] = 400 := by norm_num [meanQ]
    rw [(C3_synthesize_ragged_mean _ (by decide) 90).2, hv, hm]
    rfl

theorem matchAt_digits (cs ds amt r : List Char)
    (h : matchAt cs = some ((ds, amt), r)) :
    ds ≠ [] ∧ ∀ c ∈ ds, c.isDigit = true := by
  simp only [matchAt] at h
  split at h
  · exact absurd h (by simp)
  · rename_i hne
    split at h
    · split at h
      · exact absurd h (by simp)
      · rw [Option.some_inj] at h
        have hds : ds = cs.takeWhile Char.isDigit := by
          have := congrArg (fun x => x.1.1) h
          exact this.symm
        subst hds
        constructor
        · intro hnil
          rw [hnil] at hne
          simp at hne
        · intro c hc
          exact List.mem_takeWhile_imp hc
    · exact absurd h (by simp)

theorem findallAux_digits (fuel : Nat) :
    ∀ (cs : List Char) (pr : List Char × List Char),
      pr ∈ findallAux fuel cs → pr.1 ≠ [] ∧ ∀ c ∈ pr.1, c.isDigit = true := by
  induction fuel with
  | zero =>
    intro cs pr h
    simp [findallAux] at h
  | succ n ih =>
    intro cs pr h
    cases cs with
    | nil => simp [findallAux] at h
    | cons c rest =>
      simp only [findallAux] at h
      cases hm : matchAt (c :: rest) with
      | none =>
        rw [hm] at h
        exact ih rest pr h
      | some g =>
        obtain ⟨⟨ds, amt⟩, r⟩ := g
        rw [hm] at h
        simp only [List.mem_cons] at h
        cases h with
        | inl he =>
          subst he
          exact matchAt_digits (c :: rest) ds amt r hm
        | inr ht => exact ih r pr ht

theorem keysOf_map_update (acc : List (Nat × Nat)) (kk v : Nat) :
    keysOf (acc.map (fun p => if p.1 = kk then (p.1, v) else p)) = keysOf acc := by
  induction acc with
  | nil => rfl
  | cons p rest ih =>
    by_cases hp : p.1 = kk <;>
      simp only [List.map_cons, keysOf, hp, if_pos, if_neg, ite_true, ite_false] <;>
      simp [keysOf] at ih ⊢ <;> exact ih

theorem keysOf_dictUpdate_sub (acc : List (Nat × Nat)) (kk v k : Nat)
    (h : k ∈ keysOf (dictUpdate acc kk v)) : k ∈ keysOf acc ∨ k = kk := by
  unfold dictUpdate at h
  by_cases hany : acc.any (fun p => p.1 == kk) = true
  · rw [if_pos hany, keysOf_map_update] at h
    exact Or.inl h
  · rw [if_neg hany] at h
    have happ : keysOf (acc ++ [(kk, v)]) = keysOf acc ++ [kk] := by
      simp [keysOf]
    rw [happ, List.mem_append] at h
    cases h with
    | inl hin => exact Or.inl hin
    | inr hin => exact Or.inr (by simpa using hin)

theorem buildDict_keys (ms : List (List Char × List Char)) :
    ∀ (acc m : List (Nat × Nat)),
      buildDict acc ms = Except.ok m →
      ∀ k ∈ keysOf m, k ∈ keysOf acc ∨ ∃ pr ∈ ms, k = natOfDigits pr.1 := by
  induction ms with
  | nil =>
    intro acc m h k hk
    simp only [buildDict] at h
    rw [show m = acc from (by cases h; rfl)] at hk
    exact Or.inl hk
  | cons pr rest ih =>
    intro acc m h k hk
    obtain ⟨ds, amt⟩ := pr
    simp only [buildDict] at h
    by_cases hd : ((amt.filter (fun c => c != ',')).isEmpty : Bool) = true
    · rw [if_pos hd] at h
      exact absurd h (by simp)
    · rw [if_neg hd] at h
      have := ih _ m h k hk
      cases this with
      | inl hin =>
        cases keysOf_dictUpdate_sub acc (natOfDigits ds) _ k hin with
        | inl h2 => exact Or.inl h2
        | inr h2 => exact Or.inr ⟨(ds, amt), by simp, h2⟩
      | inr hex =>
        obtain ⟨pr2, hpr2, hk2⟩ := hex
        exact Or.inr ⟨pr2, by simp [hpr2], hk2⟩

/-- The sampling loop on a run in which no response contains the "10:"
label: no sample is collected and every response produces an unexpected
format error, in order. -/
theorem sampleLoop_all_fail (resps : List (List Char))
    (h : ∀ r ∈ resps, containsSub (str "10:") r = false) :
    sampleLoop resps = Except.ok ([], resps.map UIEvent.errorUnexpected) := by
  induction resps with
  | nil => rfl
  | cons r rest ih =>
    have hr : containsSub (str "10:") r = false := h r (by simp)
    have hrest : ∀ x ∈ rest, containsSub (str "10:") x = false :=
      fun x hx => h x (by simp [hx])
    simp [sampleLoop, hr, ih hrest]

/-- Claim C4: when every sampled response fails the extraction gate, the
pipeline emits the user-visible blocking error, renders no chart, shows
no success message, and never reaches aggregation. -/
theorem C4_no_valid_samples (resps : List (List Char))
    (h : ∀ r ∈ resps, containsSub (str "10:") r = false) :
    mainRun resps =
      Except.ok (resps.map UIEvent.errorUnexpected ++ [UIEvent.errorFailed]) ∧
    UIEvent.errorFailed ∈ resps.map UIEvent.errorUnexpected ++ [UIEvent.errorFailed] ∧
    (∀ f, UIEvent.plotChart f ∉ resps.map UIEvent.errorUnexpected ++ [UIEvent.errorFailed]) ∧
    (∀ q, UIEvent.successMedian q ∉ resps.map UIEvent.errorUnexpected ++ [UIEvent.errorFailed]) := by
  refine ⟨?_, by simp, ?_, ?_⟩
  · unfold mainRun
    rw [sampleLoop_all_fail resps h]
    rfl
  · intro f
    simp
  · intro q
    simp

/-- Witness for C4 on the one-response run "hello". -/
theorem C4_no_valid_samples_witness :
    (∀ r ∈ [str "hello"], containsSub (str "10:") r = false) ∧
    mainRun [str "hello"] =
      Except.ok [UIEvent.errorUnexpected (str "hello"), UIEvent.errorFailed] :=
  ⟨by decide, by
    have h := (C4_no_valid_samples [str "hello"] (by decide)).1
    simpa using h⟩

/-- Claim C1 (amended): the query builder is deterministic and its output
always contains the literal inflation note.  The original claim also
required the output to contain the tier identifier; the counterexample
shows that `model_type` is never interpolated into the query. -/
theorem C1_query_deterministic_contains_note
    (job_title company location model_type : List Char) :
    generate_query_for_quantiles job_title company location model_type =
      generate_query_for_quantiles job_title company location model_type ∧
    containsSub inflation_note
      (generate_query_for_quantiles job_title company location model_type) = true := by
  refine ⟨rfl, ?_⟩
  unfold generate_query_for_quantiles
  exact containsSub_append_self inflation_note _

set_option maxRecDepth 40000 in
/-- Counterexample to claim C1 as stated: with tier "Opus" and plain
inputs, the tier identifier does not occur in the query string. -/
theorem C1_counterexample :
    containsSub (str "Opus")
      (generate_query_for_quantiles (str "a") (str "b") (str "c") (str "Opus")) =
      false := by
  rfl

/-- Claim C2: the extractor maps the exemplar five-percentile response to
exactly the dictionary 10 to 50000, 25 to 60000, 50 to 75000,
75 to 90000, 90 to 110000. -/
theorem C2_extract_example :
    extract_quantiles_from_response
        (str "10: $50,000, 25: $60,000, 50: $75,000, 75: $90,000, 90: $110,000") =
      Except.ok [(10, 50000), (25, 60000), (50, 75000), (75, 90000), (90, 110000)] := by
  rfl

/-- Claim C5: the period strip corrupts decimal amounts; on text carrying
"50: $75,000.50" (alone or inside a sentence) the extractor binds key 50
to 7500050, the digits concatenated across the removed decimal point,
not to 75000. -/
theorem C5_period_strip_corrupts_decimal :
    extract_quantiles_from_response (str "50: $75,000.50") =
      Except.ok [(50, 7500050)] ∧
    extract_quantiles_from_response (str "a 50: $75,000.50 b") =
      Except.ok [(50, 7500050)] ∧
    (7500050 : Nat) ≠ 75000 :=
  ⟨rfl, rfl, by decide⟩

/-- Claim C6 (amended): a failing API call is caught inside
`estimate_salary`, which logs to the developer console and returns the
sentinel "Error or no data"; the loop continues with the remaining
repetitions and collects no sample for the failed one.  However the drop
is not silent at the user level: the sentinel lacks the "10:" label, so
`main` shows a user-visible unexpected-format error for that repetition
(see the counterexample). -/
theorem C6_sampler_catches_and_continues (e : List Char) (rest : List (List Char)) :
    (estimate_salary (ApiOutcome.exn e)).1 = errorSentinel ∧
    (estimate_salary (ApiOutcome.exn e)).2 = [str "Error during API call: " ++ e] ∧
    sampleLoop (errorSentinel :: rest) =
      (match sampleLoop rest with
       | Except.error u => Except.error u
       | Except.ok (ql, evs) =>
         Except.ok (ql, UIEvent.errorUnexpected errorSentinel :: evs)) := by
  refine ⟨rfl, rfl, ?_⟩
  have hg : containsSub (str "10:") errorSentinel = false := by rfl
  simp [sampleLoop, hg]

/-- Counterexample to claim C6 as stated: a run whose single API call
raises an exception produces a user-visible `st.error` event for that
repetition (plus the final failure error), so the drop is not free of
user-visible messages. -/
theorem C6_counterexample :
    mainFromOutcomes [ApiOutcome.exn (str "boom")] =
      Except.ok [UIEvent.errorUnexpected errorSentinel, UIEvent.errorFailed] := by
  rfl

/-- Claim C7: variant-B extraction runs on a response if and only if the
response contains the literal label "10:"; a gated-out response yields
an unexpected-format error and no sample even when it is extractable,
and a gated-in response whose match set is empty contributes an empty
mapping counted as a valid sample. -/
theorem C7_gate_controls_extraction :
    (∀ (r : List Char) (rest : List (List Char)),
        containsSub (str "10:") r = false →
        sampleLoop (r :: rest) =
          (match sampleLoop rest with
           | Except.error u => Except.error u
           | Except.ok (ql, evs) => Except.ok (ql, UIEvent.errorUnexpected r :: evs))) ∧
    (∀ (r : List Char) (rest : List (List Char)) (q : List (Nat × Nat)),
        containsSub (str "10:") r = true →
        extract_quantiles_from_response r = Except.ok q →
        sampleLoop (r :: rest) =
          (match sampleLoop rest with
           | Except.error u => Except.error u
           | Except.ok (ql, evs) => Except.ok (q :: ql, evs))) ∧
    extract_quantiles_from_response (str "10:") = Except.ok [] ∧
    sampleLoop [str "10:"] = Except.ok ([[]], []) := by
  refine ⟨?_, ?_, rfl, rfl⟩
  · intro r rest hg
    simp [sampleLoop, hg]
  · intro r rest q hg hq
    simp [sampleLoop, hg, hq]

/-- Witness for C7: the response "25: $60,000" is extractable but gated
out (error event, no sample); the response "10: $5" is gated in and its
dict is collected. -/
theorem C7_gate_controls_extraction_witness :
    containsSub (str "10:") (str "25: $60,000") = false ∧
    extract_quantiles_from_response (str "25: $60,000") = Except.ok [(25, 60000)] ∧
    sampleLoop [str "25: $60,000"] =
      Except.ok ([], [UIEvent.errorUnexpected (str "25: $60,000")]) ∧
    containsSub (str "10:") (str "10: $5") = true ∧
    sampleLoop [str "10: $5"] = Except.ok ([[(10, 5)]], []) := by
  refine ⟨by rfl, by rfl, ?_, by rfl, ?_⟩
  · exact (C7_gate_controls_extraction.1 (str "25: $60,000") [] (by rfl)).trans (by rfl)
  · exact (C7_gate_controls_extraction.2.1 (str "10: $5") [] [(10, 5)]
      (by rfl) (by rfl)).trans (by rfl)

theorem matchAt_structure (cs ds amt r : List Char)
    (h : matchAt cs = some ((ds, amt), r)) :
    (∃ t, cs = ds ++ ':' :: ' ' :: t) ∧ (∃ pre, cs = pre ++ r) := by
  simp only [matchAt] at h
  split at h
  · exact absurd h (by simp)
  · rename_i hne
    split at h
    · rename_i r2 heq
      split at h
      · exact absurd h (by simp)
      · rename_i hamt
        rw [Option.some_inj] at h
        simp only [Prod.mk.injEq] at h
        obtain ⟨⟨hds, hamt2⟩, hr⟩ := h
        have hcs2 : cs = ds ++ ':' :: ' ' :: r2 := by
          rw [← hds, ← heq]
          exact (List.takeWhile_append_dropWhile Char.isDigit cs).symm
        refine ⟨⟨r2, hcs2⟩, ?_⟩
        split at hr
        · rename_i t
          refine ⟨ds ++ ':' :: ' ' :: '$' :: List.takeWhile isAmtChar t, ?_⟩
          rw [hcs2, ← hr]
          simp [List.takeWhile_append_dropWhile]
        · refine ⟨ds ++ ':' :: ' ' :: List.takeWhile isAmtChar r2, ?_⟩
          rw [hcs2, ← hr]
          simp [List.takeWhile_append_dropWhile]
    · exact absurd h (by simp)

theorem findallAux_text (fuel : Nat) :
    ∀ (cs : List Char) (pr : List Char × List Char),
      pr ∈ findallAux fuel cs →
      ∃ pre t, cs = pre ++ pr.1 ++ ':' :: ' ' :: t := by
  induction fuel with
  | zero =>
    intro cs pr h
    simp [findallAux] at h
  | succ n ih =>
    intro cs pr h
    cases cs with
    | nil => simp [findallAux] at h
    | cons c rest =>
      simp only [findallAux] at h
      cases hm : matchAt (c :: rest) with
      | none =>
        rw [hm] at h
        obtain ⟨pre, t, hpt⟩ := ih rest pr h
        exact ⟨c :: pre, t, by simp [hpt]⟩
      | some g =>
        obtain ⟨⟨ds, amt⟩, r⟩ := g
        rw [hm] at h
        simp only [List.mem_cons] at h
        cases h with
        | inl he =>
          subst he
          obtain ⟨⟨t, ht⟩, _⟩ := matchAt_structure (c :: rest) ds amt r hm
          exact ⟨[], t, by simpa using ht⟩
        | inr ht =>
          obtain ⟨pre0, hpre0⟩ := (matchAt_structure (c :: rest) ds amt r hm).2
          obtain ⟨pre, t, hpt⟩ := ih r pr ht
          refine ⟨pre0 ++ pre, t, ?_⟩
          rw [hpre0, hpt]
          simp [List.append_assoc]

/-- Claim C8 (amended): every key of a successful variant-B extraction is
the integer value of a nonempty digit run that occurs in the
period-stripped text immediately followed by a colon and a space (the
label position of the pattern); the keys are not restricted to the set
{10, 25, 50, 75, 90} (see the counterexample, which produces key 99). -/
theorem C8_keys_are_digit_runs (text : List Char) (m : List (Nat × Nat)) (k : Nat)
    (h1 : extract_quantiles_from_response text = Except.ok m) (h2 : k ∈ keysOf m) :
    ∃ ds : List Char, ds ≠ [] ∧ (∀ c ∈ ds, c.isDigit = true) ∧ k = natOfDigits ds ∧
      ∃ pre t, text.filter (fun c => c != '.') = pre ++ ds ++ ':' :: ' ' :: t := by
  unfold extract_quantiles_from_response at h1
  have hb := buildDict_keys _ _ m h1 k h2
  cases hb with
  | inl hin => simp [keysOf] at hin
  | inr hex =>
    obtain ⟨pr, hpr, hk⟩ := hex
    unfold findall at hpr
    have hd := findallAux_digits _ _ pr hpr
    have hocc := findallAux_text _ _ pr hpr
    exact ⟨pr.1, hd.1, hd.2, hk, hocc⟩

/-- Counterexample to claim C8 as stated: the input "99: $100" extracts
to a mapping with key 99, which is outside {10, 25, 50, 75, 90}. -/
theorem C8_counterexample :
    extract_quantiles_from_response (str "99: $100") = Except.ok [(99, 100)] ∧
    (99 : Nat) ∉ ([10, 25, 50, 75, 90] : List Nat) :=
  ⟨rfl, by decide⟩

/-- Witness for C8 (amended) at the input "99: $100" and its key 99. -/
theorem C8_keys_are_digit_runs_witness :
    extract_quantiles_from_response (str "99: $100") = Except.ok [(99, 100)] ∧
    99 ∈ keysOf [(99, 100)] ∧
    (∃ ds : List Char, ds ≠ [] ∧ (∀ c ∈ ds, c.isDigit = true) ∧ 99 = natOfDigits ds ∧
      ∃ pre t, (str "99: $100").filter (fun c => c != '.') =
        pre ++ ds ++ ':' :: ' ' :: t) :=
  ⟨rfl, by decide,
    C8_keys_are_digit_runs (str "99: $100") [(99, 100)] 99 rfl (by decide)⟩

/-- Claim C9: when a run reaches the presentation stage and the
formatting of the median raises (the aggregate lacks key 50, so the
fallback string meets the numeric format spec and raises `ValueError`),
the error is caught and surfaced as a user-facing error event and the
pipeline still returns normally. -/
theorem C9_presentation_error_caught (resps : List (List Char))
    (ql : List (List (Nat × Nat))) (evs : List UIEvent)
    (h1 : sampleLoop resps = Except.ok (ql, evs)) (h2 : ql ≠ [])
    (h3 : lookupA (synthesize_quantiles ql) 50 = none) :
    mainRun resps = Except.ok (evs ++ [UIEvent.errorValue]) := by
  unfold mainRun
  rw [h1]
  have hemp : ql.isEmpty = false := by
    cases ql with
    | nil => exact absurd rfl h2
    | cons a l => rfl
  simp [hemp, presentStage, h3]

/-- Witness for C9 on the run whose single response "25: $1 10:" passes
the gate but yields an aggregate without key 50. -/
theorem C9_presentation_error_caught_witness :
    sampleLoop [str "25: $1 10:"] = Except.ok ([[(25, 1)]], []) ∧
    ([[(25, 1)]] : List (List (Nat × Nat))) ≠ [] ∧
    lookupA (synthesize_quantiles [[(25, 1)]]) 50 = none ∧
    mainRun [str "25: $1 10:"] = Except.ok [UIEvent.errorValue] := by
  refine ⟨by rfl, by simp, by rfl, ?_⟩
  have h := C9_presentation_error_caught [str "25: $1 10:"] [[(25, 1)]] []
      (by rfl) (by simp) (by rfl)
  simpa using h

theorem foldl_collect_all_nil (ql : List (List (Nat × Nat)))
    (h : ∀ m ∈ ql, m = []) :
    ∀ acc, ql.foldl (fun acc m => m.foldl (fun a p => addVal a p.1 p.2) acc) acc = acc := by
  induction ql with
  | nil => intro acc; rfl
  | cons m rest ih =>
    intro acc
    have hm : m = [] := h m (by simp)
    subst hm
    rw [List.foldl_cons]
    exact ih (fun m2 hm2 => h m2 (by simp [hm2])) acc

theorem sampleLoop_events_shape (resps : List (List Char)) :
    ∀ (ql : List (List (Nat × Nat))) (evs : List UIEvent),
      sampleLoop resps = Except.ok (ql, evs) →
      ∀ e ∈ evs, ∃ r, e = UIEvent.errorUnexpected r := by
  induction resps with
  | nil =>
    intro ql evs h e he
    simp only [sampleLoop, Except.ok.injEq, Prod.mk.injEq] at h
    rw [← h.2] at he
    simp at he
  | cons r rest ih =>
    intro ql evs h e he
    simp only [sampleLoop] at h
    by_cases hg : containsSub (str "10:") r = true
    · rw [if_pos hg] at h
      cases hex : extract_quantiles_from_response r with
      | error u =>
        rw [hex] at h
        simp at h
      | ok q =>
        rw [hex] at h
        cases hrec : sampleLoop rest with
        | error u =>
          rw [hrec] at h
          simp at h
        | ok p =>
          obtain ⟨ql2, evs2⟩ := p
          rw [hrec] at h
          simp only [Except.ok.injEq, Prod.mk.injEq] at h
          rw [← h.2] at he
          exact ih ql2 evs2 hrec e he
    · rw [if_neg hg] at h
      cases hrec : sampleLoop rest with
      | error u =>
        rw [hrec] at h
        simp at h
      | ok p =>
        obtain ⟨ql2, evs2⟩ := p
        rw [hrec] at h
        simp only [Except.ok.injEq, Prod.mk.injEq] at h
        rw [← h.2] at he
        rw [List.mem_cons] at he
        cases he with
        | inl he2 => exact ⟨r, he2⟩
        | inr he2 => exact ih ql2 evs2 hrec e he2

/-- Claim C10: every response containing "10:" whose match set is empty
contributes the empty mapping as a valid sample, and every run whose
valid samples are all empty mappings skips the zero-valid-samples error
path, aggregates to a mapping without key 50, and ends with the caught
formatting `ValueError` shown as an error event instead of a salary
(no success message and no `errorFailed` event appear). -/
theorem C10_empty_mapping_run :
    (∀ (r : List Char) (rest : List (List Char)),
        containsSub (str "10:") r = true →
        findall (r.filter (fun c => c != '.')) = [] →
        extract_quantiles_from_response r = Except.ok [] ∧
        sampleLoop (r :: rest) =
          (match sampleLoop rest with
           | Except.error u => Except.error u
           | Except.ok (ql, evs) => Except.ok (([] : List (Nat × Nat)) :: ql, evs))) ∧
    (∀ (resps : List (List Char)) (ql : List (List (Nat × Nat))) (evs : List UIEvent),
        sampleLoop resps = Except.ok (ql, evs) → ql ≠ [] → (∀ m ∈ ql, m = []) →
        synthesize_quantiles ql = [] ∧
        lookupA (synthesize_quantiles ql) 50 = none ∧
        mainRun resps = Except.ok (evs ++ [UIEvent.errorValue]) ∧
        UIEvent.errorFailed ∉ evs ++ [UIEvent.errorValue] ∧
        (∀ q : ℚ, UIEvent.successMedian q ∉ evs ++ [UIEvent.errorValue])) := by
  constructor
  · intro r rest hg hf
    have hex : extract_quantiles_from_response r = Except.ok [] := by
      unfold extract_quantiles_from_response
      rw [hf]
      rfl
    refine ⟨hex, ?_⟩
    simp [sampleLoop, hg, hex]
  · intro resps ql evs h1 h2 h3
    have hcol : collect ql = [] := foldl_collect_all_nil ql h3 []
    have hsyn : synthesize_quantiles ql = [] := by
      unfold synthesize_quantiles
      rw [hcol]
      rfl
    have hlk : lookupA (synthesize_quantiles ql) 50 = none := by
      rw [hsyn]
      rfl
    have hemp : ql.isEmpty = false := by
      cases ql with
      | nil => exact absurd rfl h2
      | cons a l => rfl
    have hmain : mainRun resps = Except.ok (evs ++ [UIEvent.errorValue]) := by
      unfold mainRun
      rw [h1]
      simp [hemp, presentStage, hlk]
    have hsh := sampleLoop_events_shape resps ql evs h1
    refine ⟨hsyn, hlk, hmain, ?_, ?_⟩
    · intro hmem
      rw [List.mem_append] at hmem
      cases hmem with
      | inl hin =>
        obtain ⟨r, hr⟩ := hsh _ hin
        simp at hr
      | inr hin => simp at hin
    · intro q hmem
      rw [List.mem_append] at hmem
      cases hmem with
      | inl hin =>
        obtain ⟨r, hr⟩ := hsh _ hin
        simp at hr
      | inr hin => simp at hin

/-- Witness for C10 on the run whose single response is "10:": the empty
match set yields the empty dict counted valid, the aggregate is empty,
and the run ends with the formatting error event alone. -/
theorem C10_empty_mapping_run_witness :
    containsSub (str "10:") (str "10:") = true ∧
    findall ((str "10:").filter (fun c => c != '.')) = [] ∧
    extract_quantiles_from_response (str "10:") = Except.ok [] ∧
    sampleLoop [str "10:"] = Except.ok ([[]], []) ∧
    synthesize_quantiles [[]] = [] ∧
    lookupA (synthesize_quantiles [[]]) 50 = none ∧
    mainRun [str "10:"] = Except.ok [UIEvent.errorValue] := by
  refine ⟨by rfl, by rfl, ?_, ?_, ?_, ?_, ?_⟩
  · exact (C10_empty_mapping_run.1 (str "10:") [] (by rfl) (by rfl)).1
  · exact ((C10_empty_mapping_run.1 (str "10:") [] (by rfl) (by rfl)).2).trans (by rfl)
  · exact (C10_empty_mapping_run.2 [str "10:"] [[]] [] (by rfl) (by simp) (by simp)).1
  · exact (C10_empty_mapping_run.2 [str "10:"] [[]] [] (by rfl) (by simp) (by simp)).2.1
  · have h := (C10_empty_mapping_run.2 [str "10:"] [[]] [] (by rfl) (by simp) (by simp)).2.2.1
    simpa using h
